import Mathlib

/-!
Shallow embedding of the operational-transformation synchronization engine
from `src/go/sync.go` (collab.nvim).

Modelling conventions:
* Go `string` document content is modelled as `List Char` (the examples in the
  spec are ASCII, where byte offsets and character offsets coincide);
  identifiers (`UserID`, `ID`) stay `String`.
* Go `int` / `int64` are modelled as `Int`, with explicit wrapping modulo
  `2 ^ 64` (`wrap64`) at the operations where Go's `int64` arithmetic can
  overflow (`hashString`, `calculatePriority`).
* Go `map[string]int64` is modelled as an association list with unique keys;
  a missing key reads as `0`, as in Go.  Go's map iteration order is
  unspecified, so map loops are translated to their order-independent
  meaning (`List.any` / `List.all` / folds whose map-value result does not
  depend on order).
* Go methods that mutate the receiver are modelled as functions returning the
  updated state; a method that can fail returns `Except SyncError` or pairs
  the updated state with an `Option SyncError`.
* `sort.Slice` in `topologicalSort` is modelled as an insertion sort with the
  source's comparator (Go's sort runs insertion sort on short slices; every
  concrete scenario proved below uses a comparator that is a strict total
  order, for which any comparison sort returns the same list).
-/

namespace Collab

/-- `OperationType` from sync.go (`insert`, `delete`, `retain`). -/
inductive OperationType
  | insert
  | delete
  | retain
deriving DecidableEq

/-- `VectorClock` (`map[string]int64`) as an association list. -/
abbrev VectorClock := List (String × Int)

/-- Go map read `vc[u]`: a missing entry reads as zero. -/
def vcGet : VectorClock → String → Int
  | [], _ => 0
  | p :: rest, u => if p.1 == u then p.2 else vcGet rest u

/-- Go map write `vc[u] = t`. -/
def vcSet (vc : VectorClock) (u : String) (t : Int) : VectorClock :=
  if vc.any (fun p => p.1 == u) then
    vc.map (fun p => if p.1 == u then (u, t) else p)
  else
    vc ++ [(u, t)]

/-- `VectorClock.Increment`: `vc[userID]++`. -/
def vcIncrement (vc : VectorClock) (u : String) : VectorClock :=
  vcSet vc u (vcGet vc u + 1)

/-- `VectorClock.Update`: componentwise max onto the receiver. -/
def vcUpdate (vc other : VectorClock) : VectorClock :=
  other.foldl (fun acc p => if vcGet acc p.1 < p.2 then vcSet acc p.1 p.2 else acc) vc

/-- `VectorClock.HappensBefore`: the two range-loops of the source return
`false` as soon as some entry of `vc` exceeds the matching entry of `other`
(missing entries read as zero), and otherwise return whether some entry is
strictly smaller. -/
def HappensBefore (vc other : VectorClock) : Bool :=
  if vc.any (fun p => p.2 > vcGet other p.1) then false
  else if other.any (fun p => vcGet vc p.1 > p.2) then false
  else vc.any (fun p => p.2 < vcGet other p.1) || other.any (fun p => vcGet vc p.1 < p.2)

/-- `VectorClock.Equals`.  When the key counts differ the source compares the
zero-extended values over the union of the key sets; when they agree it
compares only over the receiver's keys. -/
def Equals (vc other : VectorClock) : Bool :=
  if vc.length ≠ other.length then
    (vc.map Prod.fst ++ other.map Prod.fst).all (fun u => vcGet vc u == vcGet other u)
  else
    vc.all (fun p => vcGet other p.1 == p.2)

/-- `VectorClock.IsConcurrent`. -/
def IsConcurrent (vc other : VectorClock) : Bool :=
  !HappensBefore vc other && !HappensBefore other vc && !Equals vc other

/-- `Operation` from sync.go. -/
structure Operation where
  type : OperationType
  position : Int
  content : List Char
  length : Int
  userID : String
  timestamp : Int
  id : String
  vectorClock : VectorClock
deriving DecidableEq

/-- `DocumentState` from sync.go (the mutex is concurrency plumbing and has no
sequential meaning). -/
structure DocumentState where
  content : List Char
  version : Int
  operations : List Operation
  vectorClock : VectorClock
deriving DecidableEq

/-- The `SyncManager` fields the algorithms read or write (event handlers are
left unset, as in a freshly constructed manager). -/
structure SyncManager where
  document : DocumentState
  userID : String
  vectorClock : VectorClock
  localBuffer : List Operation
  remoteBuffer : List Operation
  acknowledgedOps : List String
  stateVector : List (String × Int)
  operationHistory : List Operation
  maxHistorySize : Nat
deriving DecidableEq

/-- `NewSyncManager`. -/
def NewSyncManager : SyncManager where
  document := { content := [], version := 0, operations := [], vectorClock := [] }
  userID := ""
  vectorClock := []
  localBuffer := []
  remoteBuffer := []
  acknowledgedOps := []
  stateVector := []
  operationHistory := []
  maxHistorySize := 1000

/-- `SetUserID`. -/
def SetUserID (u : String) (sm : SyncManager) : SyncManager :=
  { sm with userID := u, vectorClock := vcSet sm.vectorClock u 0,
            stateVector := vcSet sm.stateVector u 0 }

/-- `InitializeDocument`. -/
def InitializeDocument (content : List Char) (sm : SyncManager) : SyncManager :=
  { sm with
    document := { content := content, version := 0, operations := [], vectorClock := [] },
    vectorClock := vcSet [] sm.userID 0 }

/-- Signed 64-bit wrap-around, making Go `int64` overflow explicit. -/
def wrap64 (x : Int) : Int :=
  (x + 2 ^ 63) % 2 ^ 64 - 2 ^ 63

/-- `hashString`: the djb2-style fold in Go `int64` arithmetic followed by the
source's absolute-value step (`-MinInt64` wraps back to `MinInt64` in Go). -/
def hashString (s : String) : Int :=
  let h := s.data.foldl (fun h c => wrap64 (h * 33 + (c.toNat : Int))) 5381
  if h < 0 then wrap64 (-h) else h

/-- `calculatePriority`: `hashString(op.UserID + op.ID) + op.Timestamp` in
Go `int64` arithmetic. -/
def calculatePriority (op : Operation) : Int :=
  wrap64 (hashString (op.userID ++ op.id) + op.timestamp)

/-- The error values the engine can produce (Go returns `fmt.Errorf` values;
only their identity matters here). -/
inductive SyncError
  | invalidInsertPosition (position docLen : Int)
  | unknownOperationType (t : OperationType)
  | wrapped (context : String) (e : SyncError)
deriving DecidableEq

/-- `transformInsertInsert`. -/
def transformInsertInsert (op1 op2 : Operation) (op1HasPriority : Bool) : Operation :=
  if op2.position < op1.position then
    { op1 with position := op1.position + op2.length }
  else if op2.position == op1.position then
    if op1HasPriority then op1
    else { op1 with position := op1.position + op2.length }
  else op1

/-- `transformInsertDelete`. -/
def transformInsertDelete (op1 op2 : Operation) : Operation :=
  if op2.position ≤ op1.position then
    if op2.position + op2.length ≤ op1.position then
      { op1 with position := op1.position - op2.length }
    else
      { op1 with position := op2.position }
  else op1

/-- `transformDeleteInsert`. -/
def transformDeleteInsert (op1 op2 : Operation) : Operation :=
  if op2.position ≤ op1.position then
    { op1 with position := op1.position + op2.length }
  else if op2.position < op1.position + op1.length then
    { op1 with length := op1.length + op2.length }
  else op1

/-- `transformDeleteDelete`. -/
def transformDeleteDelete (op1 op2 : Operation) (_op1HasPriority : Bool) : Operation :=
  if op2.position + op2.length ≤ op1.position then
    { op1 with position := op1.position - op2.length }
  else if op1.position + op1.length ≤ op2.position then
    op1
  else
    let start1 := op1.position
    let end1 := op1.position + op1.length
    let start2 := op2.position
    let end2 := op2.position + op2.length
    if start2 ≤ start1 ∧ end2 ≥ end1 then
      { op1 with position := start2, content := [], length := 0 }
    else if start1 ≤ start2 ∧ end1 ≥ end2 then
      { op1 with length := op1.length - op2.length }
    else
      if start2 < start1 then
        let overlap := end2 - start1
        let newLength := op1.length - overlap
        { op1 with position := start2, length := if newLength < 0 then 0 else newLength }
      else
        let overlap := end1 - start2
        let newLength := op1.length - overlap
        { op1 with position := start1, length := if newLength < 0 then 0 else newLength }

/-- `inclusionTransform`: dispatch on the two operation kinds; any other
combination returns `op1` unchanged. -/
def inclusionTransform (op1 op2 : Operation) (op1HasPriority : Bool) : Operation :=
  if op1.type = .insert ∧ op2.type = .insert then
    transformInsertInsert op1 op2 op1HasPriority
  else if op1.type = .insert ∧ op2.type = .delete then
    transformInsertDelete op1 op2
  else if op1.type = .delete ∧ op2.type = .insert then
    transformDeleteInsert op1 op2
  else if op1.type = .delete ∧ op2.type = .delete then
    transformDeleteDelete op1 op2 op1HasPriority
  else op1

/-- `applyOperationToDocument`. -/
def applyOperationToDocument (op : Operation) (doc : DocumentState) :
    Except SyncError DocumentState :=
  let content := doc.content
  match op.type with
  | .insert =>
    if op.position < 0 ∨ op.position > (content.length : Int) then
      .error (.invalidInsertPosition op.position content.length)
    else
      let newContent := content.take op.position.toNat ++ op.content ++ content.drop op.position.toNat
      .ok { content := newContent,
            version := doc.version + 1,
            vectorClock := vcUpdate doc.vectorClock op.vectorClock,
            operations := doc.operations ++ [op] }
  | .delete =>
    if op.position < 0 ∨ op.position ≥ (content.length : Int) then
      -- the source skips an out-of-range delete instead of erroring
      .ok doc
    else
      let endPos := if op.position + op.length > (content.length : Int) then
                      (content.length : Int)
                    else op.position + op.length
      if endPos ≤ op.position then
        -- nothing to delete
        .ok doc
      else
        let newContent := content.take op.position.toNat ++ content.drop endPos.toNat
        .ok { content := newContent,
              version := doc.version + 1,
              vectorClock := vcUpdate doc.vectorClock op.vectorClock,
              operations := doc.operations ++ [op] }
  | _ => .error (.unknownOperationType op.type)

/-- `applyOperationDirectly` (used while rebuilding during undo; never fails,
always bumps the version and appends to the log). -/
def applyOperationDirectly (op : Operation) (doc : DocumentState) : DocumentState :=
  let content := doc.content
  let newContent :=
    match op.type with
    | .insert =>
      if 0 ≤ op.position ∧ op.position ≤ (content.length : Int) then
        content.take op.position.toNat ++ op.content ++ content.drop op.position.toNat
      else content
    | .delete =>
      if 0 ≤ op.position ∧ op.position < (content.length : Int) then
        let endPos := if op.position + op.length > (content.length : Int) then
                        (content.length : Int)
                      else op.position + op.length
        if endPos > op.position then
          content.take op.position.toNat ++ content.drop endPos.toNat
        else content
      else content
    | _ => content
  { content := newContent,
    version := doc.version + 1,
    vectorClock := vcUpdate doc.vectorClock op.vectorClock,
    operations := doc.operations ++ [op] }

/-- `undoLocalOperations`: rebuild the document from its log minus the given
operations (never fails, since `applyOperationDirectly` never fails). -/
def undoLocalOperations (operations : List Operation) (doc : DocumentState) : DocumentState :=
  let localOpIDs := operations.map (fun op => op.id)
  let remainingOps := doc.operations.filter (fun op => !localOpIDs.contains op.id)
  let base : DocumentState :=
    { content := [], version := 0, operations := [], vectorClock := doc.vectorClock }
  remainingOps.foldl (fun d op => applyOperationDirectly op d) base

/-- `addToHistory`. -/
def addToHistory (op : Operation) (sm : SyncManager) : SyncManager :=
  let hist :=
    if sm.operationHistory.length ≥ sm.maxHistorySize then
      sm.operationHistory.drop (sm.operationHistory.length / 2)
    else sm.operationHistory
  { sm with operationHistory := hist ++ [op] }

/-- `ApplyLocalOperation`: buffer first, then optimistic apply; on failure the
buffered entry stays and nothing else changes. -/
def ApplyLocalOperation (op : Operation) (sm : SyncManager) :
    SyncManager × Option SyncError :=
  let sm1 := { sm with localBuffer := sm.localBuffer ++ [op] }
  match applyOperationToDocument op sm1.document with
  | .error e => (sm1, some (.wrapped "failed to apply local operation" e))
  | .ok doc =>
    let sm2 := { sm1 with document := doc, vectorClock := vcUpdate sm1.vectorClock op.vectorClock }
    (addToHistory op sm2, none)

/-- The comparator passed to `sort.Slice` in `topologicalSort`. -/
def topoLess (op1 op2 : Operation) : Bool :=
  if HappensBefore op1.vectorClock op2.vectorClock then true
  else if HappensBefore op2.vectorClock op1.vectorClock then false
  else calculatePriority op1 < calculatePriority op2

/-- Insert into a sorted list, keeping earlier elements first on ties. -/
def insertSorted (x : Operation) : List Operation → List Operation
  | [] => [x]
  | y :: ys => if topoLess x y then x :: y :: ys else y :: insertSorted x ys

/-- `topologicalSort`: `sort.Slice` with `topoLess` (insertion sort; see the
module docstring for why this matches the source on the inputs used here). -/
def topologicalSort (operations : List Operation) : List Operation :=
  operations.foldl (fun acc op => insertSorted op acc) []

/-- All ordered pairs `(l[i], l[j])` with `i < j`, in the source's loop order. -/
def orderedPairs : List Operation → List (Operation × Operation)
  | [] => []
  | x :: xs => xs.map (fun y => (x, y)) ++ orderedPairs xs

/-- Replace the first list entry with the given id (the source's find-and-break
loop over `transformedLocalOps`). -/
def updateFirst (id : String) (f : Operation → Operation) :
    List Operation → List Operation
  | [] => []
  | op :: ops => if op.id == id then f op :: ops else op :: updateFirst id f ops

/-- One iteration of the pairwise loop in `performOperationalTransformation`:
transform the running remote operation when its id matches, otherwise the
matching entry of the running local list. -/
def potApply (remoteId : String) (st : Operation × List Operation)
    (targetId : String) (against : Operation) (flag : Bool) :
    Operation × List Operation :=
  if targetId == remoteId then
    (inclusionTransform st.1 against flag, st.2)
  else
    (st.1, updateFirst targetId (fun lo => inclusionTransform lo against flag) st.2)

/-- The body of the double loop in `performOperationalTransformation` for one
pair `(op1, op2)` of (original) sorted operations. -/
def potStep (remoteId : String) (st : Operation × List Operation)
    (pair : Operation × Operation) : Operation × List Operation :=
  let op1 := pair.1
  let op2 := pair.2
  if HappensBefore op1.vectorClock op2.vectorClock then
    potApply remoteId st op2.id op1 false
  else if HappensBefore op2.vectorClock op1.vectorClock then
    potApply remoteId st op1.id op2 true
  else if IsConcurrent op1.vectorClock op2.vectorClock then
    if calculatePriority op1 < calculatePriority op2 then
      potApply remoteId st op2.id op1 false
    else
      potApply remoteId st op1.id op2 true
  else st

/-- `performOperationalTransformation` (the error return is always `nil` in the
source). -/
def performOperationalTransformation (remoteOp : Operation) (localOps : List Operation) :
    Operation × List Operation :=
  let sortedOps := topologicalSort (remoteOp :: localOps)
  (orderedPairs sortedOps).foldl (potStep remoteOp.id) (remoteOp, localOps)

/-- The re-apply loop of `ApplyRemoteOperation` over the transformed local
operations; stops at the first error, as the source returns immediately. -/
def reapplyAll : List Operation → DocumentState → DocumentState × Option SyncError
  | [], d => (d, none)
  | op :: ops, d =>
    match applyOperationToDocument op d with
    | .error e => (d, some (.wrapped "failed to reapply transformed local operation" e))
    | .ok d2 => reapplyAll ops d2

/-- `ApplyRemoteOperation`. -/
def ApplyRemoteOperation (remoteOp : Operation) (sm : SyncManager) :
    SyncManager × Option SyncError :=
  let sm1 := { sm with remoteBuffer := sm.remoteBuffer ++ [remoteOp],
                       vectorClock := vcUpdate sm.vectorClock remoteOp.vectorClock }
  let localOps := sm1.localBuffer
  let tp := performOperationalTransformation remoteOp localOps
  let transformedOp := tp.1
  let transformedLocalOps := tp.2
  let doc1 := undoLocalOperations localOps sm1.document
  match applyOperationToDocument transformedOp doc1 with
  | .error e =>
    ({ sm1 with document := doc1 },
     some (.wrapped "failed to apply transformed remote operation" e))
  | .ok doc2 =>
    match reapplyAll transformedLocalOps doc2 with
    | (doc3, some e) => ({ sm1 with document := doc3 }, some e)
    | (doc3, none) =>
      let sm2 := { sm1 with document := doc3, localBuffer := transformedLocalOps }
      (addToHistory transformedOp sm2, none)

/-- `AcknowledgeOperation` (`acknowledgedOps[opID] = true`). -/
def AcknowledgeOperation (opID : String) (sm : SyncManager) : SyncManager :=
  if sm.acknowledgedOps.contains opID then sm
  else { sm with acknowledgedOps := sm.acknowledgedOps ++ [opID] }

/-- `CleanupHistory`: drop acknowledged operations from the local buffer, then
prune acknowledgment entries not found in the (pre-cleanup) buffer snapshot. -/
def CleanupHistory (sm : SyncManager) : SyncManager :=
  let localOps := sm.localBuffer
  let acknowledgedLocal := localOps.filter (fun op => sm.acknowledgedOps.contains op.id)
  let appliedIds := acknowledgedLocal.map (fun op => op.id)
  let newBuffer := sm.localBuffer.filter (fun op => !appliedIds.contains op.id)
  let newAcks := sm.acknowledgedOps.filter (fun opID => localOps.any (fun op => op.id == opID))
  { sm with localBuffer := newBuffer, acknowledgedOps := newAcks }

/-- `GetOperationsSince`: keep, in stored order, the applied operations whose
clock neither happens-before nor equals the peer clock. -/
def GetOperationsSince (vectorClock : VectorClock) (sm : SyncManager) : List Operation :=
  sm.document.operations.filter
    (fun op => !HappensBefore op.vectorClock vectorClock && !Equals op.vectorClock vectorClock)

/-! ### Specification-side notions

These definitions follow the specification's wording (not the source) and are
used to compare the embedded code against the spec. -/

/-- The keys (participant identifiers) of a vector clock. -/
def vcKeys (vc : VectorClock) : List String := vc.map Prod.fst

/-- The spec's `happens_before`: every component is `≤` (missing entries read
as zero) and at least one is strictly `<`, over the union of the supports. -/
def specHappensBefore (a b : VectorClock) : Prop :=
  (∀ u ∈ vcKeys a ++ vcKeys b, vcGet a u ≤ vcGet b u) ∧
  (∃ u ∈ vcKeys a ++ vcKeys b, vcGet a u < vcGet b u)

/-- The spec's clock equality: equal componentwise, missing entries as zero. -/
def specClockEq (a b : VectorClock) : Prop :=
  ∀ u ∈ vcKeys a ++ vcKeys b, vcGet a u = vcGet b u

/-- The spec's "causally ≤": happens-before or equal. -/
def specCausallyLE (a b : VectorClock) : Prop :=
  specHappensBefore a b ∨ specClockEq a b

instance (a b : VectorClock) : Decidable (specHappensBefore a b) := by
  unfold specHappensBefore; infer_instance

instance (a b : VectorClock) : Decidable (specClockEq a b) := by
  unfold specClockEq; infer_instance

instance (a b : VectorClock) : Decidable (specCausallyLE a b) := by
  unfold specCausallyLE; infer_instance

/-- The exact circumstances in which `applyOperationToDocument` fails: an
`insert` whose position is out of bounds, or a kind that is neither `insert`
nor `delete`. -/
def applyFails (op : Operation) (doc : DocumentState) : Prop :=
  (op.type = .insert ∧ (op.position < 0 ∨ op.position > (doc.content.length : Int))) ∨
  (op.type ≠ .insert ∧ op.type ≠ .delete)

/-- The delete-against-delete configuration in which `transformDeleteDelete`
takes its "op2 completely covers op1" branch. -/
def ddFullCover (op1 op2 : Operation) : Prop :=
  op1.type = .delete ∧ op2.type = .delete ∧
  ¬(op2.position + op2.length ≤ op1.position) ∧
  ¬(op1.position + op1.length ≤ op2.position) ∧
  op2.position ≤ op1.position ∧
  op2.position + op2.length ≥ op1.position + op1.length

instance (op1 op2 : Operation) : Decidable (ddFullCover op1 op2) := by
  unfold ddFullCover; infer_instance

/-- An operation valid on a base content `s`, in the sense of the spec's data
model: inserts lie within `[0, len]` and carry `length = len(content)`;
deletes have a nonnegative extent contained in the document. -/
def validOn (op : Operation) (s : List Char) : Prop :=
  (op.type = .insert ∧ 0 ≤ op.position ∧ op.position ≤ (s.length : Int) ∧
    op.length = (op.content.length : Int)) ∨
  (op.type = .delete ∧ 0 ≤ op.position ∧ 0 ≤ op.length ∧
    op.position + op.length ≤ (s.length : Int))

instance (op : Operation) (s : List Char) : Decidable (validOn op s) := by
  unfold validOn; infer_instance

/-- The configuration on which the pairwise transforms lose an insertion: an
insert positioned strictly inside the other operation's deleted range. -/
def insertInsideDelete (i d : Operation) : Prop :=
  i.type = .insert ∧ d.type = .delete ∧
  d.position < i.position ∧ i.position < d.position + d.length

instance (i d : Operation) : Decidable (insertInsideDelete i d) := by
  unfold insertInsideDelete; infer_instance

/-- A document holding only a content (the state on which TP1 is stated). -/
def docOf (s : List Char) : DocumentState :=
  { content := s, version := 0, operations := [], vectorClock := [] }

/-- One side of the TP1 diamond: apply `x` to `s`, then apply `y` transformed
against `x` with the given tie-break flag; `none` when either apply fails. -/
def tp1Side (x y : Operation) (flag : Bool) (s : List Char) : Option (List Char) :=
  match applyOperationToDocument x (docOf s) with
  | .error _ => none
  | .ok d1 =>
    match applyOperationToDocument (inclusionTransform y x flag) d1 with
    | .error _ => none
    | .ok d2 => some d2.content

/-- C1 scenario: the base content. -/
def c1S : List Char := "abcdefg".toList

/-- C1 scenario: a delete of `bcde`. -/
def c1a : Operation :=
  { type := .delete, position := 1, content := "bcde".toList, length := 4,
    userID := "u1", timestamp := 1, id := "a1", vectorClock := [("u1", 1)] }

/-- C1 scenario: a concurrent insert strictly inside the deleted range. -/
def c1b : Operation :=
  { type := .insert, position := 3, content := "X".toList, length := 1,
    userID := "u2", timestamp := 2, id := "b1", vectorClock := [("u2", 1)] }

/-- C1 witness data: an insert at position 0. -/
def c1wa : Operation :=
  { type := .insert, position := 0, content := "A".toList, length := 1,
    userID := "u1", timestamp := 1, id := "wa", vectorClock := [("u1", 1)] }

/-- C1 witness data: a concurrent insert at position 0. -/
def c1wb : Operation :=
  { type := .insert, position := 0, content := "B".toList, length := 1,
    userID := "u2", timestamp := 2, id := "wb", vectorClock := [("u2", 1)] }

/-- The spec's hash for the priority function: "the stable 32-bit djb2 hash
interpreted as signed 64-bit". -/
def specHash32 (s : String) : Int :=
  s.data.foldl (fun h c => (h * 33 + (c.toNat : Int)) % 2 ^ 32) 5381

/-- The spec's priority formula, built on the 32-bit hash. -/
def specPriority32 (op : Operation) : Int :=
  specHash32 (op.userID ++ op.id) + op.timestamp

/-- The priority formula the source actually computes, written out from first
principles: djb2 over the concatenated origin and operation id in wrapping
signed 64-bit arithmetic, then the absolute value (itself wrapping), plus the
wall time, again wrapping. -/
def specPriority64 (op : Operation) : Int :=
  let h := (op.userID.data ++ op.id.data).foldl
    (fun h c => (h * 33 + (c.toNat : Int) + 2 ^ 63) % 2 ^ 64 - 2 ^ 63) 5381
  let habs := if h < 0 then (-h + 2 ^ 63) % 2 ^ 64 - 2 ^ 63 else h
  (habs + op.timestamp + 2 ^ 63) % 2 ^ 64 - 2 ^ 63

/-- C3 scenario: an operation whose origin and id concatenate to seven
characters, enough for the 64-bit djb2 fold to leave the 32-bit range. -/
def c3op : Operation :=
  { type := .insert, position := 0, content := "A".toList, length := 1,
    userID := "aaaa", timestamp := 7, id := "aaa", vectorClock := [("aaaa", 1)] }

/-- C3 scenario: a remote insert whose priority ties with `c3opB` and whose id
is lexicographically smaller. -/
def c3opA : Operation :=
  { type := .insert, position := 5, content := "R".toList, length := 1,
    userID := "ua", timestamp := 1034, id := "p", vectorClock := [("ua", 1)] }

/-- C3 scenario: a concurrent insert tying in priority with `c3opA`. -/
def c3opB : Operation :=
  { type := .insert, position := 0, content := "L".toList, length := 1,
    userID := "ub", timestamp := 1000, id := "q", vectorClock := [("ub", 1)] }

/-- C4 and C5 scenario: a manager initialized with the two-character document
`ab`. -/
def c4sm : SyncManager := InitializeDocument "ab".toList (SetUserID "u1" NewSyncManager)

/-- C4 scenario: a local delete positioned past the end of the document. -/
def c4del : Operation :=
  { type := .delete, position := 5, content := [], length := 1,
    userID := "u1", timestamp := 1, id := "c4d", vectorClock := [("u1", 1)] }

/-- C4 witness data: a local insert positioned past the end of the document. -/
def c4ins : Operation :=
  { type := .insert, position := 5, content := "X".toList, length := 1,
    userID := "u1", timestamp := 2, id := "c4i", vectorClock := [("u1", 1)] }

/-- C5 scenario: a fresh manager with an empty document. -/
def c5sm : SyncManager := SetUserID "u1" NewSyncManager

/-- C5 scenario: a remote insert whose position is invalid on the empty
document. -/
def c5ins : Operation :=
  { type := .insert, position := 5, content := "X".toList, length := 1,
    userID := "u2", timestamp := 9, id := "r3", vectorClock := [("u2", 1)] }

/-- C5 witness data: a remote delete positioned past the end of `ab`. -/
def c5del : Operation :=
  { type := .delete, position := 7, content := [], length := 2,
    userID := "u2", timestamp := 9, id := "r4", vectorClock := [("u2", 1)] }

/-- C2 scenario: a remote insert from peer `u2`. -/
def c2r : Operation :=
  { type := .insert, position := 0, content := "A".toList, length := 1,
    userID := "u2", timestamp := 100, id := "r1", vectorClock := [("u2", 1)] }

/-- C2 scenario: a fresh manager for participant `u1`. -/
def c2sm0 : SyncManager := SetUserID "u1" NewSyncManager

/-- C2 scenario: the state after the first delivery of `c2r`. -/
def c2run1 : SyncManager × Option SyncError := ApplyRemoteOperation c2r c2sm0

/-- C2 scenario: the state after delivering the same `c2r` a second time. -/
def c2run2 : SyncManager × Option SyncError := ApplyRemoteOperation c2r c2run1.1

/-- C6 scenario: the local insert that builds the initial content. -/
def c6ins0 : Operation :=
  { type := .insert, position := 0, content := "0123456789".toList, length := 10,
    userID := "u1", timestamp := 0, id := "i0", vectorClock := [("u1", 1)] }

/-- C6 scenario: the first pending local delete. -/
def c6l1 : Operation :=
  { type := .delete, position := 2, content := "23".toList, length := 2,
    userID := "u1", timestamp := 1000000000000, id := "l1", vectorClock := [("u1", 2)] }

/-- C6 scenario: the second pending local delete. -/
def c6l2 : Operation :=
  { type := .delete, position := 3, content := "56".toList, length := 2,
    userID := "u1", timestamp := 2000000000000, id := "l2", vectorClock := [("u1", 3)] }

/-- C6 scenario: a concurrent remote delete covering both pending deletes. -/
def c6r : Operation :=
  { type := .delete, position := 0, content := [], length := 10,
    userID := "u2", timestamp := 5, id := "r2", vectorClock := [("u2", 1)] }

/-- C6 scenario: the state with `c6ins0` applied and acknowledged and the two
local deletes pending. -/
def c6s4 : SyncManager :=
  (ApplyLocalOperation c6l2
    (ApplyLocalOperation c6l1
      (CleanupHistory (AcknowledgeOperation "i0"
        (ApplyLocalOperation c6ins0
          (InitializeDocument [] (SetUserID "u1" NewSyncManager))).1))).1).1

/-- C6 scenario: the delivery of the covering remote delete. -/
def c6run : SyncManager × Option SyncError := ApplyRemoteOperation c6r c6s4

/-- Witness data: an operation of the unproduced `retain` kind. -/
def wOpRetain : Operation :=
  { type := .retain, position := 0, content := [], length := 0,
    userID := "u1", timestamp := 0, id := "w10", vectorClock := [("u1", 1)] }

/-- Witness data: a small vector clock. -/
def w7a : VectorClock := [("u1", 1)]

/-- Witness data: a vector clock dominating `w7a`. -/
def w7b : VectorClock := [("u1", 1), ("u2", 2)]

/-- Witness data: a delete operation covered by `w9b`. -/
def w9a : Operation :=
  { type := .delete, position := 1, content := "b".toList, length := 1,
    userID := "u1", timestamp := 0, id := "w9a", vectorClock := [("u1", 1)] }

/-- Witness data: a wide delete operation. -/
def w9b : Operation :=
  { type := .delete, position := 0, content := "abcde".toList, length := 5,
    userID := "u2", timestamp := 0, id := "w9b", vectorClock := [("u2", 1)] }

/-- Witness data: an applied operation seen by the peer clock `w8c`. -/
def w8op1 : Operation :=
  { type := .insert, position := 0, content := "A".toList, length := 1,
    userID := "u1", timestamp := 0, id := "w8a", vectorClock := [("u1", 1)] }

/-- Witness data: an applied operation not seen by the peer clock `w8c`. -/
def w8op2 : Operation :=
  { type := .insert, position := 1, content := "B".toList, length := 1,
    userID := "u2", timestamp := 0, id := "w8b", vectorClock := [("u1", 1), ("u2", 1)] }

/-- Witness data: a manager whose document log holds `w8op1` and `w8op2`. -/
def w8sm : SyncManager :=
  { NewSyncManager with
    document := { content := "AB".toList, version := 2,
                  operations := [w8op1, w8op2],
                  vectorClock := [("u1", 1), ("u2", 1)] } }

/-- Witness data: the peer clock that has seen only `w8op1`. -/
def w8c : VectorClock := [("u1", 1)]

/-! ### Vector-clock lemmas -/

theorem vcGet_of_mem : ∀ {vc : VectorClock}, (vcKeys vc).Nodup →
    ∀ {p : String × Int}, p ∈ vc → vcGet vc p.1 = p.2 := by
  intro vc
  induction vc with
  | nil => intro _ p hp; cases hp
  | cons q rest ih =>
    intro hnd p hp
    have hnd2 : q.1 ∉ vcKeys rest ∧ (vcKeys rest).Nodup := by
      simpa [vcKeys] using hnd
    rcases List.mem_cons.mp hp with rfl | hp2
    · simp [vcGet]
    · have hq : ¬(q.1 = p.1) := by
        intro he
        exact hnd2.1 (he ▸ List.mem_map_of_mem Prod.fst hp2)
      simp only [vcGet, beq_iff_eq, if_neg hq]
      exact ih hnd2.2 hp2

theorem vcGet_eq_zero_of_not_mem : ∀ {vc : VectorClock} {u : String},
    u ∉ vcKeys vc → vcGet vc u = 0 := by
  intro vc
  induction vc with
  | nil => intro u _; rfl
  | cons q rest ih =>
    intro u hu
    have h1 : ¬(q.1 = u) := fun he => hu (by simp [vcKeys, he])
    have h2 : u ∉ vcKeys rest := fun hm => hu (by simp [vcKeys] at hm ⊢; tauto)
    simp only [vcGet, beq_iff_eq, if_neg h1]
    exact ih h2

theorem vcGet_nonneg : ∀ {vc : VectorClock}, (∀ p ∈ vc, 0 ≤ p.2) →
    ∀ (u : String), 0 ≤ vcGet vc u := by
  intro vc
  induction vc with
  | nil => intro _ u; simp [vcGet]
  | cons q rest ih =>
    intro h u
    simp only [vcGet]
    split
    · exact h q (List.mem_cons_self q rest)
    · exact ih (fun p hp => h p (List.mem_cons_of_mem q hp)) u

theorem mem_vcKeys_iff {vc : VectorClock} {u : String} :
    u ∈ vcKeys vc ↔ ∃ p ∈ vc, p.1 = u := by
  simp [vcKeys, List.mem_map]

/-- The characterization of the source's `HappensBefore` on clocks with
duplicate-free keys (as Go maps have). -/
theorem happensBefore_char (a b : VectorClock)
    (ha : (vcKeys a).Nodup) (hb : (vcKeys b).Nodup) :
    HappensBefore a b = true ↔ specHappensBefore a b := by
  have hga : ∀ p ∈ a, vcGet a p.1 = p.2 := fun p hp => vcGet_of_mem ha hp
  have hgb : ∀ p ∈ b, vcGet b p.1 = p.2 := fun p hp => vcGet_of_mem hb hp
  unfold HappensBefore specHappensBefore
  constructor
  · intro h
    split_ifs at h with h1 h2
    · simp only [List.any_eq_true, decide_eq_true_eq, not_exists, not_and, not_lt] at h1 h2
      constructor
      · intro u hu
        rcases List.mem_append.mp hu with hua | hub
        · obtain ⟨p, hp, rfl⟩ := mem_vcKeys_iff.mp hua
          rw [hga p hp]
          simpa using h1 p hp
        · obtain ⟨p, hp, rfl⟩ := mem_vcKeys_iff.mp hub
          rw [hgb p hp]
          simpa using h2 p hp
      · simp only [Bool.or_eq_true, List.any_eq_true, decide_eq_true_eq] at h
        rcases h with ⟨p, hp, hlt⟩ | ⟨p, hp, hlt⟩
        · exact ⟨p.1, List.mem_append_left _ (mem_vcKeys_iff.mpr ⟨p, hp, rfl⟩),
            by rw [hga p hp]; exact hlt⟩
        · exact ⟨p.1, List.mem_append_right _ (mem_vcKeys_iff.mpr ⟨p, hp, rfl⟩),
            by rw [hgb p hp]; exact hlt⟩
  · rintro ⟨hle, u, hu, hlt⟩
    have h1 : ¬(a.any fun p => p.2 > vcGet b p.1) := by
      simp only [List.any_eq_true, decide_eq_true_eq, not_exists, not_and, not_lt]
      intro p hp
      have := hle p.1 (List.mem_append_left _ (mem_vcKeys_iff.mpr ⟨p, hp, rfl⟩))
      rw [hga p hp] at this
      exact this
    have h2 : ¬(b.any fun p => vcGet a p.1 > p.2) := by
      simp only [List.any_eq_true, decide_eq_true_eq, not_exists, not_and, not_lt]
      intro p hp
      have := hle p.1 (List.mem_append_right _ (mem_vcKeys_iff.mpr ⟨p, hp, rfl⟩))
      rw [hgb p hp] at this
      exact this
    rw [if_neg h1, if_neg h2]
    simp only [Bool.or_eq_true, List.any_eq_true, decide_eq_true_eq]
    rcases List.mem_append.mp hu with hua | hub
    · obtain ⟨p, hp, rfl⟩ := mem_vcKeys_iff.mp hua
      exact Or.inl ⟨p, hp, by rw [hga p hp] at hlt; exact hlt⟩
    · obtain ⟨p, hp, rfl⟩ := mem_vcKeys_iff.mp hub
      exact Or.inr ⟨p, hp, by rw [hgb p hp] at hlt; exact hlt⟩

theorem equals_of_specClockEq (a b : VectorClock) (ha : (vcKeys a).Nodup)
    (h : specClockEq a b) : Equals a b = true := by
  unfold Equals
  split_ifs with hlen
  · simp only [List.all_eq_true, beq_iff_eq]
    intro u hu
    exact h u hu
  · simp only [List.all_eq_true, beq_iff_eq]
    intro p hp
    have h1 : vcGet a p.1 = p.2 := vcGet_of_mem ha hp
    have h2 := h p.1 (List.mem_append_left _ (mem_vcKeys_iff.mpr ⟨p, hp, rfl⟩))
    omega

theorem specClockEq_or_hb_of_equals (a b : VectorClock) (ha : (vcKeys a).Nodup)
    (hb0 : ∀ p ∈ b, 0 ≤ p.2) (h : Equals a b = true) :
    specClockEq a b ∨ specHappensBefore a b := by
  unfold Equals at h
  split_ifs at h with hlen
  · left
    simpa only [List.all_eq_true, beq_iff_eq, specClockEq, vcKeys] using h
  · simp only [List.all_eq_true, beq_iff_eq] at h
    have hpa : ∀ p ∈ a, vcGet b p.1 = p.2 := h
    have haeq : ∀ u ∈ vcKeys a, vcGet a u = vcGet b u := by
      intro u hu
      obtain ⟨p, hp, rfl⟩ := mem_vcKeys_iff.mp hu
      rw [vcGet_of_mem ha hp, hpa p hp]
    by_cases hq : ∀ u ∈ vcKeys b, vcGet a u = vcGet b u
    · left
      intro u hu
      rcases List.mem_append.mp hu with hua | hub
      · exact haeq u hua
      · exact hq u hub
    · right
      push_neg at hq
      obtain ⟨u, hub, hne⟩ := hq
      have hua : u ∉ vcKeys a := fun h' => hne (haeq u h')
      have h0 : vcGet a u = 0 := vcGet_eq_zero_of_not_mem hua
      have hbu : 0 ≤ vcGet b u := vcGet_nonneg hb0 u
      have hstrict : vcGet a u < vcGet b u := by omega
      refine ⟨?_, u, List.mem_append_right _ hub, hstrict⟩
      intro v hv
      rcases List.mem_append.mp hv with hva | hvb
      · exact le_of_eq (haeq v hva)
      · by_cases hva2 : v ∈ vcKeys a
        · exact le_of_eq (haeq v hva2)
        · rw [vcGet_eq_zero_of_not_mem hva2]
          exact vcGet_nonneg hb0 v

/-- C7: the source's `HappensBefore` is exactly the strict componentwise order
with missing entries read as zero: `a ≤ b` on every participant in the union
of the supports and `a < b` on at least one. -/
theorem happensBefore_strict_componentwise (a b : VectorClock)
    (ha : (vcKeys a).Nodup) (hb : (vcKeys b).Nodup) :
    HappensBefore a b = true ↔ specHappensBefore a b :=
  happensBefore_char a b ha hb

/-- C7 witness: the characterization evaluated at a concrete clock pair. -/
theorem happensBefore_strict_componentwise_witness : specHappensBefore w7a w7b :=
  (happensBefore_strict_componentwise w7a w7b (by decide) (by decide)).mp (by decide)

/-- C8: `GetOperationsSince` returns exactly the applied operations, in stored
order, whose clock is not causally ≤ the peer clock (neither happens-before it
nor equals it, missing entries reading as zero). -/
theorem getOperationsSince_keeps_exactly_unseen (sm : SyncManager) (c : VectorClock)
    (hc : (vcKeys c).Nodup) (hc0 : ∀ p ∈ c, 0 ≤ p.2)
    (hops : ∀ op ∈ sm.document.operations, (vcKeys op.vectorClock).Nodup) :
    GetOperationsSince c sm =
      sm.document.operations.filter (fun op => decide (¬ specCausallyLE op.vectorClock c)) := by
  unfold GetOperationsSince
  apply List.filter_congr
  intro op hop
  have hnd := hops op hop
  have hchar := happensBefore_char op.vectorClock c hnd hc
  by_cases hsp : specCausallyLE op.vectorClock c
  · have hfalse : (!HappensBefore op.vectorClock c && !Equals op.vectorClock c) = false := by
      rcases hsp with hhb | heq
      · rw [hchar.mpr hhb]; rfl
      · rw [equals_of_specClockEq op.vectorClock c hnd heq]
        simp
    rw [hfalse]
    simp [hsp]
  · have hnhb : ¬ specHappensBefore op.vectorClock c := fun h => hsp (Or.inl h)
    have hneq : ¬ specClockEq op.vectorClock c := fun h => hsp (Or.inr h)
    have h1 : HappensBefore op.vectorClock c = false := by
      rcases hb : HappensBefore op.vectorClock c with _ | _
      · rfl
      · exact absurd (hchar.mp hb) hnhb
    have h2 : Equals op.vectorClock c = false := by
      rcases he : Equals op.vectorClock c with _ | _
      · rfl
      · rcases specClockEq_or_hb_of_equals op.vectorClock c hnd hc0 he with h | h
        · exact absurd h hneq
        · exact absurd h hnhb
    rw [h1, h2]
    simp [hsp]

/-- C8 witness: the filter evaluated on a concrete log and peer clock. -/
theorem getOperationsSince_keeps_exactly_unseen_witness :
    GetOperationsSince w8c w8sm =
      w8sm.document.operations.filter (fun op => decide (¬ specCausallyLE op.vectorClock w8c)) :=
  getOperationsSince_keeps_exactly_unseen w8sm w8c (by decide) (by decide) (by decide)

/-- C9: `inclusionTransform` preserves `Type`, `Content`, `UserID`,
`Timestamp`, `ID` and `VectorClock` of its first argument — only position and
length may change — except in the delete-covers-delete branch, where the
content becomes empty and the length becomes `0`. -/
theorem inclusionTransform_frame (op1 op2 : Operation) (flag : Bool) :
    (inclusionTransform op1 op2 flag).type = op1.type ∧
    (inclusionTransform op1 op2 flag).userID = op1.userID ∧
    (inclusionTransform op1 op2 flag).timestamp = op1.timestamp ∧
    (inclusionTransform op1 op2 flag).id = op1.id ∧
    (inclusionTransform op1 op2 flag).vectorClock = op1.vectorClock ∧
    (ddFullCover op1 op2 →
      (inclusionTransform op1 op2 flag).content = [] ∧
      (inclusionTransform op1 op2 flag).length = 0) ∧
    (¬ ddFullCover op1 op2 → (inclusionTransform op1 op2 flag).content = op1.content) := by
  unfold inclusionTransform
  split_ifs with hii hid hdi hdd
  · have hnc : ¬ ddFullCover op1 op2 := by
      rintro ⟨hd, _⟩; rw [hii.1] at hd; cases hd
    unfold transformInsertInsert
    split_ifs <;> simp [hnc]
  · have hnc : ¬ ddFullCover op1 op2 := by
      rintro ⟨hd, _⟩; rw [hid.1] at hd; cases hd
    unfold transformInsertDelete
    split_ifs <;> simp [hnc]
  · have hnc : ¬ ddFullCover op1 op2 := by
      rintro ⟨_, hd, _⟩; rw [hdi.2] at hd; cases hd
    unfold transformDeleteInsert
    split_ifs <;> simp [hnc]
  · unfold transformDeleteDelete
    simp only
    split_ifs <;> simp_all [ddFullCover]
  · have hnc : ¬ ddFullCover op1 op2 := by
      rintro ⟨hd1, hd2, _⟩
      exact hdd ⟨hd1, hd2⟩
    simp [hnc]

/-- C9 witness: the covered-delete branch at a concrete pair. -/
theorem inclusionTransform_frame_witness :
    (inclusionTransform w9a w9b true).content = [] ∧
    (inclusionTransform w9a w9b true).length = 0 :=
  (inclusionTransform_frame w9a w9b true).2.2.2.2.2.1 (by decide)

/-- C10: `ApplyLocalOperation` appends the operation to the local pending
buffer before applying; when the apply step fails, the wrapped error is
returned while the operation stays in the buffer and the document, vector
clock and history are unchanged. -/
theorem applyLocalOperation_failure_keeps_buffer (sm : SyncManager) (op : Operation)
    (e : SyncError) (h : applyOperationToDocument op sm.document = .error e) :
    ApplyLocalOperation op sm =
      ({ sm with localBuffer := sm.localBuffer ++ [op] },
       some (.wrapped "failed to apply local operation" e)) := by
  unfold ApplyLocalOperation
  simp only [h]

/-- C10 witness: a local operation of kind `retain` fails yet stays buffered. -/
theorem applyLocalOperation_failure_keeps_buffer_witness :
    ApplyLocalOperation wOpRetain NewSyncManager =
      ({ NewSyncManager with localBuffer := NewSyncManager.localBuffer ++ [wOpRetain] },
       some (.wrapped "failed to apply local operation" (.unknownOperationType .retain))) :=
  applyLocalOperation_failure_keeps_buffer NewSyncManager wOpRetain
    (.unknownOperationType .retain) rfl

set_option maxRecDepth 100000 in
/-- C3 counterexample: the priority of `c3op` differs from the spec's
32-bit-djb2 formula, and on the equal-priority concurrent pair
`c3opA, c3opB` the operation with the lexicographically smaller id (`c3opA`,
id `p`, the remote one, versus id `q`) is itself transformed (its position
moves from 5 to 6), so the tie is not resolved by comparing ids. -/
theorem calculatePriority_deviates_from_spec :
    calculatePriority c3op ≠ specPriority32 c3op ∧
    IsConcurrent c3opA.vectorClock c3opB.vectorClock = true ∧
    calculatePriority c3opA = calculatePriority c3opB ∧
    c3opA.id = "p" ∧ c3opB.id = "q" ∧ c3opA.id.data < c3opB.id.data ∧
    c3opA.position = 5 ∧
    (performOperationalTransformation c3opA [c3opB]).1.position = 6 := by
  refine ⟨by decide, by decide, by decide, rfl, rfl, ?_, by decide, by decide⟩
  exact List.Lex.rel (by decide)

/-- C3 amended: the priority is the wrapping 64-bit djb2 hash of
origin‖op_id, made nonnegative by a wrapping absolute value, plus the wall
time in wrapping 64-bit addition; it is a pure function of those inputs; and
when two concurrent operations do not satisfy `priority(op1) < priority(op2)`
(in particular on ties) the pairwise loop transforms `op1` against `op2`,
without consulting the ids. -/
theorem calculatePriority_char :
    (∀ op : Operation, calculatePriority op = specPriority64 op) ∧
    (∀ (rid : String) (st : Operation × List Operation) (p : Operation × Operation),
      IsConcurrent p.1.vectorClock p.2.vectorClock = true →
      ¬ calculatePriority p.1 < calculatePriority p.2 →
      potStep rid st p = potApply rid st p.1.id p.2 true) := by
  constructor
  · intro op
    rfl
  · intro rid st p hconc hlt
    have hcc := hconc
    simp only [IsConcurrent, Bool.and_eq_true, Bool.not_eq_true'] at hcc
    have h1 : ¬ HappensBefore p.1.vectorClock p.2.vectorClock = true := by
      simp [hcc.1.1]
    have h2 : ¬ HappensBefore p.2.vectorClock p.1.vectorClock = true := by
      simp [hcc.1.2]
    unfold potStep
    simp only [if_neg h1, if_neg h2, if_pos hconc, if_neg hlt]

set_option maxRecDepth 100000 in
/-- C3 witness: the amended characterization at concrete inputs. -/
theorem calculatePriority_char_witness :
    calculatePriority c3op = specPriority64 c3op ∧
    potStep c3opA.id (c3opA, [c3opB]) (c3opA, c3opB) =
      potApply c3opA.id (c3opA, [c3opB]) c3opA.id c3opB true :=
  ⟨calculatePriority_char.1 c3op,
   calculatePriority_char.2 c3opA.id (c3opA, [c3opB]) (c3opA, c3opB) (by decide) (by decide)⟩

set_option maxRecDepth 100000 in
/-- C4 counterexample: a local delete positioned past the end of the document
returns success (no `InvalidPosition` error) and leaves the document
untouched. -/
theorem applyLocal_oob_delete_succeeds :
    c4del.type = .delete ∧
    c4del.position ≥ (c4sm.document.content.length : Int) ∧
    (ApplyLocalOperation c4del c4sm).2 = none ∧
    (ApplyLocalOperation c4del c4sm).1.document.content = c4sm.document.content := by
  decide

/-- C4 amended: `apply_local` fails for an insert whose position is out of
bounds (and, per C10, for unknown kinds), but an out-of-bounds local delete is
silently skipped: the call returns success and the document is unchanged. -/
theorem applyLocal_bounds_policy :
    (∀ (sm : SyncManager) (op : Operation), op.type = .insert →
      op.position < 0 ∨ op.position > (sm.document.content.length : Int) →
      (ApplyLocalOperation op sm).2.isSome = true) ∧
    (∀ (sm : SyncManager) (op : Operation), op.type = .delete →
      op.position < 0 ∨ op.position ≥ (sm.document.content.length : Int) →
      (ApplyLocalOperation op sm).2 = none ∧
      (ApplyLocalOperation op sm).1.document = sm.document) := by
  constructor
  · intro sm op ht hpos
    obtain ⟨t, pos, c, len, u, ts, i, vc⟩ := op
    simp only at ht
    subst ht
    unfold ApplyLocalOperation applyOperationToDocument
    simp only [if_pos hpos]
    rfl
  · intro sm op ht hpos
    obtain ⟨t, pos, c, len, u, ts, i, vc⟩ := op
    simp only at ht
    subst ht
    unfold ApplyLocalOperation applyOperationToDocument
    simp only [if_pos hpos, addToHistory]
    exact ⟨trivial, trivial⟩

set_option maxRecDepth 100000 in
/-- C4 witness: the bounds policy at concrete local operations. -/
theorem applyLocal_bounds_policy_witness :
    (ApplyLocalOperation c4ins c4sm).2.isSome = true ∧
    ((ApplyLocalOperation c4del c4sm).2 = none ∧
     (ApplyLocalOperation c4del c4sm).1.document = c4sm.document) :=
  ⟨applyLocal_bounds_policy.1 c4sm c4ins rfl (by decide),
   applyLocal_bounds_policy.2 c4sm c4del rfl (by decide)⟩

set_option maxRecDepth 100000 in
/-- C5 counterexample: a remote insert whose position is invalid makes
`apply_remote` return an error instead of silently applying a no-op. -/
theorem applyRemote_invalid_insert_errors :
    c5ins.type = .insert ∧
    c5ins.position > (c5sm.document.content.length : Int) ∧
    (ApplyRemoteOperation c5ins c5sm).2.isSome = true := by
  decide

/-- C5 amended: at the document-apply step used by `apply_remote`, a delete
whose position is invalid after transformation is silently clamped to a no-op
(success, state unchanged), while an insert whose position is invalid yields
an error, which `apply_remote` propagates. -/
theorem applyOperation_clamp_policy :
    (∀ (doc : DocumentState) (op : Operation), op.type = .delete →
      op.position < 0 ∨ op.position ≥ (doc.content.length : Int) →
      applyOperationToDocument op doc = .ok doc) ∧
    (∀ (doc : DocumentState) (op : Operation), op.type = .insert →
      op.position < 0 ∨ op.position > (doc.content.length : Int) →
      applyOperationToDocument op doc =
        .error (.invalidInsertPosition op.position doc.content.length)) := by
  constructor
  · intro doc op ht hpos
    obtain ⟨t, pos, c, len, u, ts, i, vc⟩ := op
    simp only at ht
    subst ht
    unfold applyOperationToDocument
    simp only [if_pos hpos]
  · intro doc op ht hpos
    obtain ⟨t, pos, c, len, u, ts, i, vc⟩ := op
    simp only at ht
    subst ht
    unfold applyOperationToDocument
    simp only [if_pos hpos]

set_option maxRecDepth 100000 in
/-- C5 witness: the clamp policy at concrete remote operations. -/
theorem applyOperation_clamp_policy_witness :
    applyOperationToDocument c5del c4sm.document = .ok c4sm.document ∧
    applyOperationToDocument c5ins c5sm.document =
      .error (.invalidInsertPosition c5ins.position c5sm.document.content.length) :=
  ⟨applyOperation_clamp_policy.1 c4sm.document c5del rfl (by decide),
   applyOperation_clamp_policy.2 c5sm.document c5ins rfl (by decide)⟩

set_option maxRecDepth 1000000 in
/-- C2: delivering the same remote operation twice is not rejected; the second
call applies it again, changing both the content and the version. -/
theorem applyRemote_not_idempotent :
    c2run1.2 = none ∧
    c2run1.1.document.content = "A".toList ∧
    c2run1.1.document.version = 1 ∧
    c2run2.2 = none ∧
    c2run2.1.document.content = "AA".toList ∧
    c2run2.1.document.version = 2 := by
  decide

theorem applyOperationToDocument_vlen {op : Operation} {d d2 : DocumentState}
    (h : applyOperationToDocument op d = .ok d2)
    (hv : d.version = (d.operations.length : Int)) :
    d2.version = (d2.operations.length : Int) := by
  obtain ⟨t, pos, c, len, u, ts, i, vc⟩ := op
  cases t <;> simp only [applyOperationToDocument] at h
  · split_ifs at h <;> cases h <;> first | exact hv | (simp <;> omega)
  · split_ifs at h <;> cases h <;> first | exact hv | (simp <;> omega)
  · cases h

theorem applyOperationDirectly_version (op : Operation) (d : DocumentState) :
    (applyOperationDirectly op d).version = d.version + 1 := rfl

theorem applyOperationDirectly_ops (op : Operation) (d : DocumentState) :
    (applyOperationDirectly op d).operations = d.operations ++ [op] := rfl

theorem foldDirect_vlen : ∀ (l : List Operation) (d0 : DocumentState),
    d0.version = (d0.operations.length : Int) →
    (l.foldl (fun d op => applyOperationDirectly op d) d0).version =
      ((l.foldl (fun d op => applyOperationDirectly op d) d0).operations.length : Int) := by
  intro l
  induction l with
  | nil => intro d0 h0; exact h0
  | cons op rest ih =>
    intro d0 h0
    simp only [List.foldl_cons]
    apply ih
    rw [applyOperationDirectly_version, applyOperationDirectly_ops]
    simp
    omega

theorem undoLocalOperations_vlen (P : List Operation) (d : DocumentState) :
    (undoLocalOperations P d).version = ((undoLocalOperations P d).operations.length : Int) := by
  unfold undoLocalOperations
  apply foldDirect_vlen
  simp

theorem reapplyAll_vlen : ∀ (l : List Operation) (d : DocumentState),
    d.version = (d.operations.length : Int) →
    (reapplyAll l d).1.version = (((reapplyAll l d).1.operations.length : Int)) := by
  intro l
  induction l with
  | nil => intro d h; exact h
  | cons op rest ih =>
    intro d h
    simp only [reapplyAll]
    cases hx : applyOperationToDocument op d with
    | error e => exact h
    | ok d2 => exact ih d2 (applyOperationToDocument_vlen hx h)

set_option maxRecDepth 1000000 in
/-- C6 counterexample: with two pending local deletes both swallowed by a
covering concurrent remote delete, a successful `apply_remote` lowers the
version from 3 to 2 (each no-op reapply skips the version bump), so the
version is not monotone — though it still equals the log length. -/
theorem version_decreases_across_applyRemote :
    c6s4.document.version = 3 ∧
    c6s4.document.operations.length = 3 ∧
    c6run.2 = none ∧
    c6run.1.document.version = 2 ∧
    c6run.1.document.operations.length = 2 := by
  decide

/-- C6 amended: after every completed public call the version equals the
length of the applied log (for `apply_remote` even unconditionally, since the
undo step rebuilds both together), but the version is not monotone across
calls. -/
theorem version_matches_log_length :
    (∀ (content : List Char) (sm : SyncManager),
      (InitializeDocument content sm).document.version =
        ((InitializeDocument content sm).document.operations.length : Int)) ∧
    (∀ (op : Operation) (sm : SyncManager),
      sm.document.version = (sm.document.operations.length : Int) →
      (ApplyLocalOperation op sm).1.document.version =
        (((ApplyLocalOperation op sm).1.document.operations.length : Int))) ∧
    (∀ (r : Operation) (sm : SyncManager),
      (ApplyRemoteOperation r sm).1.document.version =
        (((ApplyRemoteOperation r sm).1.document.operations.length : Int))) := by
  refine ⟨fun content sm => by simp [InitializeDocument], ?_, ?_⟩
  · intro op sm h
    simp only [ApplyLocalOperation]
    split
    · exact h
    · next doc hx => simpa [addToHistory] using applyOperationToDocument_vlen hx h
  · intro r sm
    simp only [ApplyRemoteOperation]
    have h1 := undoLocalOperations_vlen sm.localBuffer sm.document
    split
    · next e hx => simpa using h1
    · next doc2 hx =>
      have h2 := applyOperationToDocument_vlen hx h1
      have h3 := reapplyAll_vlen (performOperationalTransformation r sm.localBuffer).2 doc2 h2
      split
      · next doc3 e hy =>
        rw [hy] at h3
        simpa using h3
      · next doc3 hy =>
        rw [hy] at h3
        simpa [addToHistory] using h3

/-- C6 witness: the version-equals-log-length invariant at concrete calls. -/
theorem version_matches_log_length_witness :
    (InitializeDocument [] NewSyncManager).document.version =
      (((InitializeDocument [] NewSyncManager).document.operations.length : Int)) ∧
    (ApplyLocalOperation c6ins0 c2sm0).1.document.version =
      (((ApplyLocalOperation c6ins0 c2sm0).1.document.operations.length : Int)) ∧
    (ApplyRemoteOperation c2r c2sm0).1.document.version =
      (((ApplyRemoteOperation c2r c2sm0).1.document.operations.length : Int)) :=
  ⟨version_matches_log_length.1 [] NewSyncManager,
   version_matches_log_length.2.1 c6ins0 c2sm0 (by decide),
   version_matches_log_length.2.2 c2r c2sm0⟩


/-! ### TP1: content-level splice lemmas and the diamond property -/

set_option maxHeartbeats 2000000

theorem spliceII (s c d : List Char) (i j : Nat) (hij : i ≤ j) (hj : j ≤ s.length) :
    ((s.take i ++ (c ++ s.drop i)).take (j + c.length) ++
      (d ++ (s.take i ++ (c ++ s.drop i)).drop (j + c.length)))
      = ((s.take j ++ (d ++ s.drop j)).take i ++
          (c ++ (s.take j ++ (d ++ s.drop j)).drop i)) := by
  have h1 : (s.take i).length = i := by rw [List.length_take]; omega
  have h2 : (s.take j).length = j := by rw [List.length_take]; omega
  have h3 : (s.drop i).length = s.length - i := by rw [List.length_drop]
  have h4 : (s.drop j).length = s.length - j := by rw [List.length_drop]
  have hA : ((s.take i ++ (c ++ s.drop i)).take (j + c.length)).length = j + c.length := by
    rw [List.length_take]
    simp only [List.length_append, h1, h3]
    omega
  have hB : ((s.take j ++ (d ++ s.drop j)).take i).length = i := by
    rw [List.length_take]
    simp only [List.length_append, h2, h4]
    omega
  apply List.ext_getElem?
  intro n
  simp only [hA, hB, List.getElem?_append, List.getElem?_take, List.getElem?_drop,
    h1, h2, h3, h4, List.length_append]
  split_ifs <;>
    first
      | rfl
      | omega
      | (rw [List.getElem?_eq_none (by omega)])
      | (rw [List.getElem?_eq_none (by omega)]; rw [List.getElem?_eq_none (by omega)])
      | (congr 1; omega)



theorem spliceID (s c : List Char) (i p L : Nat) (hip : i ≤ p) (hpl : p + L ≤ s.length) :
    ((s.take i ++ (c ++ s.drop i)).take (p + c.length) ++
      (s.take i ++ (c ++ s.drop i)).drop (p + c.length + L))
      = ((s.take p ++ s.drop (p + L)).take i ++
          (c ++ (s.take p ++ s.drop (p + L)).drop i)) := by
  have h1 : (s.take i).length = i := by rw [List.length_take]; omega
  have h2 : (s.take p).length = p := by rw [List.length_take]; omega
  have h3 : (s.drop i).length = s.length - i := by rw [List.length_drop]
  have h4 : (s.drop (p + L)).length = s.length - (p + L) := by rw [List.length_drop]
  have hA : ((s.take i ++ (c ++ s.drop i)).take (p + c.length)).length = p + c.length := by
    rw [List.length_take]; simp only [List.length_append, h1, h3]; omega
  have hB : ((s.take p ++ s.drop (p + L)).take i).length = i := by
    rw [List.length_take]; simp only [List.length_append, h2, h4]; omega
  apply List.ext_getElem?
  intro n
  simp only [hA, hB, List.getElem?_append, List.getElem?_take, List.getElem?_drop,
    h1, h2, h3, h4, List.length_append]
  split_ifs <;>
    first
      | rfl
      | omega
      | (rw [List.getElem?_eq_none (by omega)])
      | (rw [List.getElem?_eq_none (by omega)]; rw [List.getElem?_eq_none (by omega)])
      | (congr 1; omega)

theorem spliceDI (s c : List Char) (p L i : Nat) (hpl : p + L ≤ i) (hi : i ≤ s.length) :
    ((s.take i ++ (c ++ s.drop i)).take p ++ (s.take i ++ (c ++ s.drop i)).drop (p + L))
      = ((s.take p ++ s.drop (p + L)).take (i - L) ++
          (c ++ (s.take p ++ s.drop (p + L)).drop (i - L))) := by
  have h1 : (s.take i).length = i := by rw [List.length_take]; omega
  have h2 : (s.take p).length = p := by rw [List.length_take]; omega
  have h3 : (s.drop i).length = s.length - i := by rw [List.length_drop]
  have h4 : (s.drop (p + L)).length = s.length - (p + L) := by rw [List.length_drop]
  have hA : ((s.take i ++ (c ++ s.drop i)).take p).length = p := by
    rw [List.length_take]; simp only [List.length_append, h1, h3]; omega
  have hB : ((s.take p ++ s.drop (p + L)).take (i - L)).length = i - L := by
    rw [List.length_take]; simp only [List.length_append, h2, h4]; omega
  apply List.ext_getElem?
  intro n
  simp only [hA, hB, List.getElem?_append, List.getElem?_take, List.getElem?_drop,
    h1, h2, h3, h4, List.length_append]
  split_ifs <;>
    first
      | rfl
      | omega
      | (rw [List.getElem?_eq_none (by omega)])
      | (rw [List.getElem?_eq_none (by omega)]; rw [List.getElem?_eq_none (by omega)])
      | (congr 1; omega)

theorem spliceDDdisj (s : List Char) (p1 L1 p2 L2 : Nat)
    (h12 : p1 + L1 ≤ p2) (h2s : p2 + L2 ≤ s.length) :
    ((s.take p1 ++ s.drop (p1 + L1)).take (p2 - L1) ++
      (s.take p1 ++ s.drop (p1 + L1)).drop (p2 - L1 + L2))
      = ((s.take p2 ++ s.drop (p2 + L2)).take p1 ++
          (s.take p2 ++ s.drop (p2 + L2)).drop (p1 + L1)) := by
  have h1 : (s.take p1).length = p1 := by rw [List.length_take]; omega
  have h2 : (s.take p2).length = p2 := by rw [List.length_take]; omega
  have h3 : (s.drop (p1 + L1)).length = s.length - (p1 + L1) := by rw [List.length_drop]
  have h4 : (s.drop (p2 + L2)).length = s.length - (p2 + L2) := by rw [List.length_drop]
  have hA : ((s.take p1 ++ s.drop (p1 + L1)).take (p2 - L1)).length = p2 - L1 := by
    rw [List.length_take]; simp only [List.length_append, h1, h3]; omega
  have hB : ((s.take p2 ++ s.drop (p2 + L2)).take p1).length = p1 := by
    rw [List.length_take]; simp only [List.length_append, h2, h4]; omega
  apply List.ext_getElem?
  intro n
  simp only [hA, hB, List.getElem?_append, List.getElem?_take, List.getElem?_drop,
    h1, h2, h3, h4, List.length_append]
  split_ifs <;>
    first
      | rfl
      | omega
      | (rw [List.getElem?_eq_none (by omega)])
      | (rw [List.getElem?_eq_none (by omega)]; rw [List.getElem?_eq_none (by omega)])
      | (congr 1; omega)

theorem spliceDDcover (s : List Char) (p1 L1 p2 L2 : Nat)
    (h1c : p1 ≤ p2) (h2c : p2 + L2 ≤ p1 + L1) (h3c : p1 + L1 ≤ s.length) :
    ((s.take p2 ++ s.drop (p2 + L2)).take p1 ++
      (s.take p2 ++ s.drop (p2 + L2)).drop (p1 + (L1 - L2)))
      = s.take p1 ++ s.drop (p1 + L1) := by
  have h2 : (s.take p2).length = p2 := by rw [List.length_take]; omega
  have h4 : (s.drop (p2 + L2)).length = s.length - (p2 + L2) := by rw [List.length_drop]
  have hB : ((s.take p2 ++ s.drop (p2 + L2)).take p1).length = p1 := by
    rw [List.length_take]; simp only [List.length_append, h2, h4]; omega
  have h1 : (s.take p1).length = p1 := by rw [List.length_take]; omega
  apply List.ext_getElem?
  intro n
  simp only [hB, List.getElem?_append, List.getElem?_take, List.getElem?_drop,
    h1, h2, h4, List.length_append, List.length_drop]
  split_ifs <;>
    first
      | rfl
      | omega
      | (rw [List.getElem?_eq_none (by omega)])
      | (rw [List.getElem?_eq_none (by omega)]; rw [List.getElem?_eq_none (by omega)])
      | (congr 1; omega)

theorem spliceDDpartialA (s : List Char) (p1 L1 p2 L2 : Nat)
    (h1c : p1 ≤ p2) (h2c : p2 ≤ p1 + L1) (h3c : p1 + L1 ≤ p2 + L2) (h4c : p2 + L2 ≤ s.length) :
    ((s.take p1 ++ s.drop (p1 + L1)).take p1 ++
      (s.take p1 ++ s.drop (p1 + L1)).drop (p1 + (p2 + L2 - (p1 + L1))))
      = s.take p1 ++ s.drop (p2 + L2) := by
  have h1 : (s.take p1).length = p1 := by rw [List.length_take]; omega
  have h3 : (s.drop (p1 + L1)).length = s.length - (p1 + L1) := by rw [List.length_drop]
  have hA : ((s.take p1 ++ s.drop (p1 + L1)).take p1).length = p1 := by
    rw [List.length_take]; simp only [List.length_append, h1, h3]; omega
  apply List.ext_getElem?
  intro n
  simp only [hA, List.getElem?_append, List.getElem?_take, List.getElem?_drop,
    h1, h3, List.length_append, List.length_drop]
  split_ifs <;>
    first
      | rfl
      | omega
      | (rw [List.getElem?_eq_none (by omega)])
      | (rw [List.getElem?_eq_none (by omega)]; rw [List.getElem?_eq_none (by omega)])
      | (congr 1; omega)

theorem spliceDDpartialB (s : List Char) (p1 p2 L2 : Nat)
    (h1c : p1 ≤ p2) (h4c : p2 + L2 ≤ s.length) :
    ((s.take p2 ++ s.drop (p2 + L2)).take p1 ++
      (s.take p2 ++ s.drop (p2 + L2)).drop (p1 + (p2 - p1)))
      = s.take p1 ++ s.drop (p2 + L2) := by
  have h2 : (s.take p2).length = p2 := by rw [List.length_take]; omega
  have h4 : (s.drop (p2 + L2)).length = s.length - (p2 + L2) := by rw [List.length_drop]
  have hB : ((s.take p2 ++ s.drop (p2 + L2)).take p1).length = p1 := by
    rw [List.length_take]; simp only [List.length_append, h2, h4]; omega
  have h1 : (s.take p1).length = p1 := by rw [List.length_take]; omega
  apply List.ext_getElem?
  intro n
  simp only [hB, List.getElem?_append, List.getElem?_take, List.getElem?_drop,
    h1, h2, h4, List.length_append, List.length_drop]
  split_ifs <;>
    first
      | rfl
      | omega
      | (rw [List.getElem?_eq_none (by omega)])
      | (rw [List.getElem?_eq_none (by omega)]; rw [List.getElem?_eq_none (by omega)])
      | (congr 1; omega)


theorem apply_insert_content (op : Operation) (d : DocumentState) (ht : op.type = .insert)
    (h0 : 0 ≤ op.position) (h1 : op.position ≤ (d.content.length : Int)) :
    ∃ d2, applyOperationToDocument op d = .ok d2 ∧
      d2.content = d.content.take op.position.toNat ++
        (op.content ++ d.content.drop op.position.toNat) := by
  obtain ⟨t, pos, c, len, u, ts, i, vc⟩ := op
  simp only at ht h0 h1 ⊢
  subst ht
  unfold applyOperationToDocument
  simp only
  rw [if_neg (by omega)]
  exact ⟨_, rfl, by simp⟩

theorem apply_delete_content (op : Operation) (d : DocumentState) (ht : op.type = .delete)
    (h0 : 0 ≤ op.position) (hl : 0 ≤ op.length) :
    ∃ d2, applyOperationToDocument op d = .ok d2 ∧
      d2.content = d.content.take op.position.toNat ++
        d.content.drop (op.position.toNat + op.length.toNat) := by
  obtain ⟨t, pos, c, len, u, ts, i, vc⟩ := op
  simp only at ht h0 hl ⊢
  subst ht
  unfold applyOperationToDocument
  simp only
  by_cases hA : pos < 0 ∨ pos ≥ (d.content.length : Int)
  · rw [if_pos hA]
    refine ⟨d, rfl, ?_⟩
    rw [List.take_of_length_le (by omega), List.drop_of_length_le (by omega),
      List.append_nil]
  · rw [if_neg hA]
    by_cases hc : pos + len > (d.content.length : Int)
    · rw [if_pos hc]
      rw [if_neg (by omega : ¬ ((d.content.length : Int) ≤ pos))]
      refine ⟨_, rfl, ?_⟩
      simp only
      congr 1
      rw [List.drop_of_length_le (by omega), List.drop_of_length_le (by omega)]
    · rw [if_neg hc]
      by_cases hB : pos + len ≤ pos
      · rw [if_pos hB]
        refine ⟨d, rfl, ?_⟩
        have hz : len.toNat = 0 := by omega
        rw [hz, Nat.add_zero, List.take_append_drop]
      · rw [if_neg hB]
        refine ⟨_, rfl, ?_⟩
        simp only
        have hpl : (pos + len).toNat = pos.toNat + len.toNat := by omega
        rw [hpl]


theorem tp1_case_II (s : List Char) (a b : Operation)
    (ha : a.type = .insert) (hb : b.type = .insert)
    (ha0 : 0 ≤ a.position) (ha1 : a.position ≤ (s.length : Int))
    (haL : a.length = (a.content.length : Int))
    (hb0 : 0 ≤ b.position) (hb1 : b.position ≤ (s.length : Int))
    (hbL : b.length = (b.content.length : Int)) :
    tp1Side a b false s = tp1Side b a true s := by
  unfold tp1Side
  obtain ⟨d1, hd1, hc1⟩ := apply_insert_content a (docOf s) ha ha0 (by simpa [docOf] using ha1)
  obtain ⟨e1, he1, hk1⟩ := apply_insert_content b (docOf s) hb hb0 (by simpa [docOf] using hb1)
  simp only [docOf] at hc1 hk1
  rw [hd1, he1]
  simp only
  have hlen1 : (d1.content.length : Int) = s.length + a.content.length := by
    rw [hc1]
    simp only [List.length_append, List.length_take, List.length_drop]
    push_cast
    omega
  have hlen2 : (e1.content.length : Int) = s.length + b.content.length := by
    rw [hk1]
    simp only [List.length_append, List.length_take, List.length_drop]
    push_cast
    omega
  by_cases hab : a.position ≤ b.position
  · have hIT1 : inclusionTransform b a false = { b with position := b.position + a.length } := by
      unfold inclusionTransform transformInsertInsert
      rw [if_pos ⟨hb, ha⟩]
      by_cases hx : a.position < b.position
      · rw [if_pos hx]
      · rw [if_neg hx, if_pos (by simp only [beq_iff_eq]; omega)]
        simp
    have hIT2 : inclusionTransform a b true = a := by
      unfold inclusionTransform transformInsertInsert
      rw [if_pos ⟨ha, hb⟩, if_neg (by omega : ¬ b.position < a.position)]
      by_cases hx : (b.position == a.position) = true
      · rw [if_pos hx]
        simp
      · rw [if_neg hx]
    rw [hIT1, hIT2]
    obtain ⟨d2, hd2, hc2⟩ := apply_insert_content { b with position := b.position + a.length } d1
      (hb) (by simp only; omega) (by simp only; rw [hlen1]; omega)
    obtain ⟨e2, he2, hk2⟩ := apply_insert_content a e1 ha ha0 (by rw [hlen2]; omega)
    rw [hd2, he2]
    simp only
    congr 1
    rw [hc2, hk2, hc1, hk1]
    simp only
    have hx1 : (b.position + a.length).toNat = b.position.toNat + a.content.length := by
      omega
    rw [hx1]
    exact spliceII s a.content b.content a.position.toNat b.position.toNat
      (by omega) (by omega)
  · have hIT1 : inclusionTransform b a false = b := by
      unfold inclusionTransform transformInsertInsert
      rw [if_pos ⟨hb, ha⟩, if_neg (by omega : ¬ a.position < b.position),
        if_neg (by simp only [beq_iff_eq]; omega)]
    have hIT2 : inclusionTransform a b true = { a with position := a.position + b.length } := by
      unfold inclusionTransform transformInsertInsert
      rw [if_pos ⟨ha, hb⟩, if_pos (by omega : b.position < a.position)]
    rw [hIT1, hIT2]
    obtain ⟨d2, hd2, hc2⟩ := apply_insert_content b d1 hb hb0 (by rw [hlen1]; omega)
    obtain ⟨e2, he2, hk2⟩ := apply_insert_content { a with position := a.position + b.length } e1
      (ha) (by simp only; omega) (by simp only; rw [hlen2]; omega)
    rw [hd2, he2]
    simp only
    congr 1
    rw [hc2, hk2, hc1, hk1]
    simp only
    have hx1 : (a.position + b.length).toNat = a.position.toNat + b.content.length := by
      omega
    rw [hx1]
    exact (spliceII s b.content a.content b.position.toNat a.position.toNat
      (by omega) (by omega)).symm

theorem tp1_case_ID (s : List Char) (a b : Operation)
    (ha : a.type = .insert) (hb : b.type = .delete)
    (ha0 : 0 ≤ a.position) (ha1 : a.position ≤ (s.length : Int))
    (haL : a.length = (a.content.length : Int))
    (hb0 : 0 ≤ b.position) (hbL : 0 ≤ b.length)
    (hb1 : b.position + b.length ≤ (s.length : Int))
    (hexc : ¬(b.position < a.position ∧ a.position < b.position + b.length)) :
    tp1Side a b false s = tp1Side b a true s := by
  unfold tp1Side
  obtain ⟨d1, hd1, hc1⟩ := apply_insert_content a (docOf s) ha ha0 (by simpa [docOf] using ha1)
  obtain ⟨e1, he1, hk1⟩ := apply_delete_content b (docOf s) hb hb0 hbL
  simp only [docOf] at hc1 hk1
  rw [hd1, he1]
  simp only
  have hlen1 : (d1.content.length : Int) = s.length + a.content.length := by
    rw [hc1]
    simp only [List.length_append, List.length_take, List.length_drop]
    push_cast
    omega
  have hlen2 : (e1.content.length : Int) = s.length - b.length := by
    rw [hk1]
    simp only [List.length_append, List.length_take, List.length_drop]
    push_cast
    omega
  by_cases hip : a.position ≤ b.position
  · -- insert at or before the delete start
    have hIT1 : inclusionTransform b a false = { b with position := b.position + a.length } := by
      unfold inclusionTransform transformDeleteInsert
      rw [if_neg (by simp [hb]), if_neg (by simp [hb]), if_pos ⟨hb, ha⟩, if_pos hip]
    have hIT2 : ∃ q, inclusionTransform a b true = { a with position := q } ∧ q = a.position := by
      unfold inclusionTransform transformInsertDelete
      rw [if_neg (by simp [hb]), if_pos ⟨ha, hb⟩]
      by_cases hx : b.position ≤ a.position
      · rw [if_pos hx]
        by_cases hy : b.position + b.length ≤ a.position
        · rw [if_pos hy]
          exact ⟨a.position - b.length, rfl, by omega⟩
        · rw [if_neg hy]
          exact ⟨b.position, rfl, by omega⟩
      · rw [if_neg hx]
        exact ⟨a.position, rfl, rfl⟩
    obtain ⟨q, hq, hq2⟩ := hIT2
    rw [hIT1, hq, hq2]
    obtain ⟨d2, hd2, hc2⟩ := apply_delete_content { b with position := b.position + a.length } d1
      hb (by simp only; omega) hbL
    obtain ⟨e2, he2, hk2⟩ := apply_insert_content { a with position := a.position } e1
      ha ha0 (by simp only; rw [hlen2]; omega)
    rw [hd2, he2]
    simp only
    congr 1
    rw [hc2, hk2, hc1, hk1]
    simp only
    have hx1 : (b.position + a.length).toNat = b.position.toNat + a.content.length := by omega
    have hx2 : ({ b with position := b.position + a.length } : Operation).length = b.length := rfl
    rw [hx1]
    have hx3 : b.position.toNat + a.content.length + b.length.toNat
        = b.position.toNat + a.content.length + b.length.toNat := rfl
    exact spliceID s a.content a.position.toNat b.position.toNat b.length.toNat
      (by omega) (by omega)
  · -- the delete lies entirely before the insert
    push_neg at hexc
    have hple : b.position + b.length ≤ a.position := hexc (by omega)
    have hIT1 : inclusionTransform b a false = b := by
      unfold inclusionTransform transformDeleteInsert
      rw [if_neg (by simp [hb]), if_neg (by simp [hb]), if_pos ⟨hb, ha⟩,
        if_neg (by omega : ¬ a.position ≤ b.position), if_neg (by omega)]
    have hIT2 : inclusionTransform a b true = { a with position := a.position - b.length } := by
      unfold inclusionTransform transformInsertDelete
      rw [if_neg (by simp [hb]), if_pos ⟨ha, hb⟩, if_pos (by omega : b.position ≤ a.position),
        if_pos hple]
    rw [hIT1, hIT2]
    obtain ⟨d2, hd2, hc2⟩ := apply_delete_content b d1 hb hb0 hbL
    obtain ⟨e2, he2, hk2⟩ := apply_insert_content { a with position := a.position - b.length } e1
      ha (by simp only; omega) (by simp only; rw [hlen2]; omega)
    rw [hd2, he2]
    simp only
    congr 1
    rw [hc2, hk2, hc1, hk1]
    simp only
    have hx1 : (a.position - b.length).toNat = a.position.toNat - b.length.toNat := by omega
    rw [hx1]
    exact spliceDI s a.content b.position.toNat b.length.toNat a.position.toNat
      (by omega) (by omega)

theorem tp1_case_DI (s : List Char) (a b : Operation)
    (ha : a.type = .delete) (hb : b.type = .insert)
    (ha0 : 0 ≤ a.position) (haL : 0 ≤ a.length)
    (ha1 : a.position + a.length ≤ (s.length : Int))
    (hb0 : 0 ≤ b.position) (hb1 : b.position ≤ (s.length : Int))
    (hbL : b.length = (b.content.length : Int))
    (hexc : ¬(a.position < b.position ∧ b.position < a.position + a.length)) :
    tp1Side a b false s = tp1Side b a true s := by
  unfold tp1Side
  obtain ⟨d1, hd1, hc1⟩ := apply_delete_content a (docOf s) ha ha0 haL
  obtain ⟨e1, he1, hk1⟩ := apply_insert_content b (docOf s) hb hb0 (by simpa [docOf] using hb1)
  simp only [docOf] at hc1 hk1
  rw [hd1, he1]
  simp only
  have hlen1 : (d1.content.length : Int) = s.length - a.length := by
    rw [hc1]
    simp only [List.length_append, List.length_take, List.length_drop]
    push_cast
    omega
  have hlen2 : (e1.content.length : Int) = s.length + b.content.length := by
    rw [hk1]
    simp only [List.length_append, List.length_take, List.length_drop]
    push_cast
    omega
  by_cases hip : b.position ≤ a.position
  · -- insert at or before the delete start
    have hIT1 : ∃ q, inclusionTransform b a false = { b with position := q } ∧ q = b.position := by
      unfold inclusionTransform transformInsertDelete
      rw [if_neg (by simp [ha]), if_pos ⟨hb, ha⟩]
      by_cases hx : a.position ≤ b.position
      · rw [if_pos hx]
        by_cases hy : a.position + a.length ≤ b.position
        · rw [if_pos hy]
          exact ⟨b.position - a.length, rfl, by omega⟩
        · rw [if_neg hy]
          exact ⟨a.position, rfl, by omega⟩
      · rw [if_neg hx]
        exact ⟨b.position, rfl, rfl⟩
    have hIT2 : inclusionTransform a b true = { a with position := a.position + b.length } := by
      unfold inclusionTransform transformDeleteInsert
      rw [if_neg (by simp [ha]), if_neg (by simp [ha]), if_pos ⟨ha, hb⟩, if_pos hip]
    obtain ⟨q, hq, hq2⟩ := hIT1
    rw [hq, hq2, hIT2]
    obtain ⟨d2, hd2, hc2⟩ := apply_insert_content { b with position := b.position } d1
      hb hb0 (by simp only; rw [hlen1]; omega)
    obtain ⟨e2, he2, hk2⟩ := apply_delete_content { a with position := a.position + b.length } e1
      ha (by simp only; omega) haL
    rw [hd2, he2]
    simp only
    congr 1
    rw [hc2, hk2, hc1, hk1]
    simp only
    have hx1 : (a.position + b.length).toNat = a.position.toNat + b.content.length := by omega
    rw [hx1]
    exact (spliceID s b.content b.position.toNat a.position.toNat a.length.toNat
      (by omega) (by omega)).symm
  · -- the delete lies entirely before the insert
    push_neg at hexc
    have hple : a.position + a.length ≤ b.position := hexc (by omega)
    have hIT1 : inclusionTransform b a false = { b with position := b.position - a.length } := by
      unfold inclusionTransform transformInsertDelete
      rw [if_neg (by simp [ha]), if_pos ⟨hb, ha⟩, if_pos (by omega : a.position ≤ b.position),
        if_pos hple]
    have hIT2 : inclusionTransform a b true = a := by
      unfold inclusionTransform transformDeleteInsert
      rw [if_neg (by simp [ha]), if_neg (by simp [ha]), if_pos ⟨ha, hb⟩,
        if_neg (by omega : ¬ b.position ≤ a.position), if_neg (by omega)]
    rw [hIT1, hIT2]
    obtain ⟨d2, hd2, hc2⟩ := apply_insert_content { b with position := b.position - a.length } d1
      hb (by simp only; omega) (by simp only; rw [hlen1]; omega)
    obtain ⟨e2, he2, hk2⟩ := apply_delete_content a e1 ha ha0 haL
    rw [hd2, he2]
    simp only
    congr 1
    rw [hc2, hk2, hc1, hk1]
    simp only
    have hx1 : (b.position - a.length).toNat = b.position.toNat - a.length.toNat := by omega
    rw [hx1]
    exact (spliceDI s b.content a.position.toNat a.length.toNat b.position.toNat
      (by omega) (by omega)).symm

theorem tp1_case_DD (s : List Char) (a b : Operation)
    (ha : a.type = .delete) (hb : b.type = .delete)
    (ha0 : 0 ≤ a.position) (haL : 0 ≤ a.length)
    (ha1 : a.position + a.length ≤ (s.length : Int))
    (hb0 : 0 ≤ b.position) (hbL : 0 ≤ b.length)
    (hb1 : b.position + b.length ≤ (s.length : Int)) :
    tp1Side a b false s = tp1Side b a true s := by
  unfold tp1Side
  obtain ⟨d1, hd1, hc1⟩ := apply_delete_content a (docOf s) ha ha0 haL
  obtain ⟨e1, he1, hk1⟩ := apply_delete_content b (docOf s) hb hb0 hbL
  simp only [docOf] at hc1 hk1
  rw [hd1, he1]
  simp only
  have hlen1 : (d1.content.length : Int) = s.length - a.length := by
    rw [hc1]
    simp only [List.length_append, List.length_take, List.length_drop]
    push_cast
    omega
  have hlen2 : (e1.content.length : Int) = s.length - b.length := by
    rw [hk1]
    simp only [List.length_append, List.length_take, List.length_drop]
    push_cast
    omega
  have hred1 : inclusionTransform b a false = transformDeleteDelete b a false := by
    unfold inclusionTransform
    rw [if_neg (by simp [hb]), if_neg (by simp [hb]), if_neg (by simp [ha]), if_pos ⟨hb, ha⟩]
  have hred2 : inclusionTransform a b true = transformDeleteDelete a b true := by
    unfold inclusionTransform
    rw [if_neg (by simp [ha]), if_neg (by simp [ha]), if_neg (by simp [hb]), if_pos ⟨ha, hb⟩]
  rw [hred1, hred2]
  by_cases hR1 : a.position + a.length ≤ b.position
  · have hT1 : transformDeleteDelete b a false = { b with position := b.position - a.length } := by
      unfold transformDeleteDelete
      rw [if_pos hR1]
    by_cases hR2 : b.position + b.length ≤ a.position
    · -- degenerate: both lengths zero, same position
      have hT2 : transformDeleteDelete a b true = { a with position := a.position - b.length } := by
        unfold transformDeleteDelete
        rw [if_pos hR2]
      rw [hT1, hT2]
      obtain ⟨d2, hd2, hc2⟩ := apply_delete_content { b with position := b.position - a.length } d1
        hb (by simp only; omega) hbL
      obtain ⟨e2, he2, hk2⟩ := apply_delete_content { a with position := a.position - b.length } e1
        ha (by simp only; omega) haL
      rw [hd2, he2]
      simp only
      congr 1
      rw [hc2, hk2, hc1, hk1]
      simp only
      have hx1 : (b.position - a.length).toNat = b.position.toNat - a.length.toNat := by omega
      have hx2 : (a.position - b.length).toNat = a.position.toNat := by omega
      rw [hx1, hx2]
      exact spliceDDdisj s a.position.toNat a.length.toNat b.position.toNat b.length.toNat
        (by omega) (by omega)
    · have hT2 : transformDeleteDelete a b true = a := by
        unfold transformDeleteDelete
        rw [if_neg hR2, if_pos hR1]
      rw [hT1, hT2]
      obtain ⟨d2, hd2, hc2⟩ := apply_delete_content { b with position := b.position - a.length } d1
        hb (by simp only; omega) hbL
      obtain ⟨e2, he2, hk2⟩ := apply_delete_content a e1 ha ha0 haL
      rw [hd2, he2]
      simp only
      congr 1
      rw [hc2, hk2, hc1, hk1]
      simp only
      have hx1 : (b.position - a.length).toNat = b.position.toNat - a.length.toNat := by omega
      rw [hx1]
      exact spliceDDdisj s a.position.toNat a.length.toNat b.position.toNat b.length.toNat
        (by omega) (by omega)
  · by_cases hR2 : b.position + b.length ≤ a.position
    · have hT1 : transformDeleteDelete b a false = b := by
        unfold transformDeleteDelete
        rw [if_neg (by omega : ¬ a.position + a.length ≤ b.position), if_pos hR2]
      have hT2 : transformDeleteDelete a b true = { a with position := a.position - b.length } := by
        unfold transformDeleteDelete
        rw [if_pos hR2]
      rw [hT1, hT2]
      obtain ⟨d2, hd2, hc2⟩ := apply_delete_content b d1 hb hb0 hbL
      obtain ⟨e2, he2, hk2⟩ := apply_delete_content { a with position := a.position - b.length } e1
        ha (by simp only; omega) haL
      rw [hd2, he2]
      simp only
      congr 1
      rw [hc2, hk2, hc1, hk1]
      simp only
      have hx2 : (a.position - b.length).toNat = a.position.toNat - b.length.toNat := by omega
      rw [hx2]
      exact (spliceDDdisj s b.position.toNat b.length.toNat a.position.toNat a.length.toNat
        (by omega) (by omega)).symm
    · -- overlapping ranges
      by_cases hcova : b.position ≤ a.position ∧ a.position + a.length ≤ b.position + b.length
      · by_cases hcovb : a.position ≤ b.position ∧ b.position + b.length ≤ a.position + a.length
        · -- identical ranges - both become no-ops
          have hT1 : transformDeleteDelete b a false =
              { b with position := a.position, content := [], length := 0 } := by
            unfold transformDeleteDelete
            rw [if_neg hR1, if_neg hR2]
            simp only
            rw [if_pos ⟨hcovb.1, by omega⟩]
          have hT2 : transformDeleteDelete a b true =
              { a with position := b.position, content := [], length := 0 } := by
            unfold transformDeleteDelete
            rw [if_neg hR2, if_neg hR1]
            simp only
            rw [if_pos ⟨hcova.1, by omega⟩]
          rw [hT1, hT2]
          obtain ⟨d2, hd2, hc2⟩ := apply_delete_content
            { b with position := a.position, content := [], length := 0 } d1
            hb (by simp only; omega) (by simp only; omega)
          obtain ⟨e2, he2, hk2⟩ := apply_delete_content
            { a with position := b.position, content := [], length := 0 } e1
            ha (by simp only; omega) (by simp only; omega)
          rw [hd2, he2]
          simp only
          congr 1
          rw [hc2, hk2]
          simp only
          rw [Int.toNat_zero, Nat.add_zero, Nat.add_zero, List.take_append_drop,
            List.take_append_drop, hc1, hk1]
          have h1 : b.position.toNat = a.position.toNat := by omega
          have h2 : b.position.toNat + b.length.toNat = a.position.toNat + a.length.toNat := by
            omega
          rw [h1]
          have h2b : a.position.toNat + b.length.toNat = a.position.toNat + a.length.toNat := by
            omega
          rw [h2b]
        · -- b covers a properly
          have hT1 : transformDeleteDelete b a false = { b with length := b.length - a.length } := by
              unfold transformDeleteDelete
              rw [if_neg hR1, if_neg hR2]
              simp only
              rw [if_neg (by rintro ⟨x, y⟩; exact hcovb ⟨x, by omega⟩),
                if_pos ⟨hcova.1, by omega⟩]
          have hT2 : transformDeleteDelete a b true =
              { a with position := b.position, content := [], length := 0 } := by
            unfold transformDeleteDelete
            rw [if_neg hR2, if_neg hR1]
            simp only
            rw [if_pos ⟨hcova.1, by omega⟩]
          rw [hT1, hT2]
          obtain ⟨d2, hd2, hc2⟩ := apply_delete_content { b with length := b.length - a.length } d1
            hb hb0 (by simp only; omega)
          obtain ⟨e2, he2, hk2⟩ := apply_delete_content
            { a with position := b.position, content := [], length := 0 } e1
            ha (by simp only; omega) (by simp only; omega)
          rw [hd2, he2]
          simp only
          congr 1
          rw [hc2, hk2]
          simp only
          rw [Int.toNat_zero, Nat.add_zero, List.take_append_drop, hc1, hk1]
          have hx1 : (b.length - a.length).toNat = b.length.toNat - a.length.toNat := by omega
          rw [hx1]
          exact spliceDDcover s b.position.toNat b.length.toNat a.position.toNat a.length.toNat
            (by omega) (by omega) (by omega)
      · by_cases hcovb : a.position ≤ b.position ∧ b.position + b.length ≤ a.position + a.length
        · -- a covers b properly
          have hT1 : transformDeleteDelete b a false =
              { b with position := a.position, content := [], length := 0 } := by
            unfold transformDeleteDelete
            rw [if_neg hR1, if_neg hR2]
            simp only
            rw [if_pos ⟨hcovb.1, by omega⟩]
          have hT2 : transformDeleteDelete a b true = { a with length := a.length - b.length } := by
            unfold transformDeleteDelete
            rw [if_neg hR2, if_neg hR1]
            simp only
            rw [if_neg (by rintro ⟨x, y⟩; exact hcova ⟨x, by omega⟩),
              if_pos ⟨hcovb.1, by omega⟩]
          rw [hT1, hT2]
          obtain ⟨d2, hd2, hc2⟩ := apply_delete_content
            { b with position := a.position, content := [], length := 0 } d1
            hb (by simp only; omega) (by simp only; omega)
          obtain ⟨e2, he2, hk2⟩ := apply_delete_content { a with length := a.length - b.length } e1
            ha ha0 (by simp only; omega)
          rw [hd2, he2]
          simp only
          congr 1
          rw [hc2, hk2]
          simp only
          rw [Int.toNat_zero, Nat.add_zero, List.take_append_drop, hc1, hk1]
          have hx1 : (a.length - b.length).toNat = a.length.toNat - b.length.toNat := by omega
          rw [hx1]
          exact (spliceDDcover s a.position.toNat a.length.toNat b.position.toNat b.length.toNat
            (by omega) (by omega) (by omega)).symm
        · -- partial overlap
          rcases (by omega :
              (a.position < b.position ∧ a.position + a.length < b.position + b.length) ∨
              (b.position < a.position ∧ b.position + b.length < a.position + a.length)) with
            ⟨hp1, hp2⟩ | ⟨hp1, hp2⟩
          · have hT1 : transformDeleteDelete b a false =
                { b with position := a.position,
                         length := b.length - (a.position + a.length - b.position) } := by
              unfold transformDeleteDelete
              rw [if_neg hR1, if_neg hR2]
              simp only
              rw [if_neg (by rintro ⟨x, y⟩; omega),
                if_neg (by rintro ⟨x, y⟩; omega),
                if_pos hp1,
                if_neg (by omega :
                  ¬ b.length - (a.position + a.length - b.position) < 0)]
            have hT2 : transformDeleteDelete a b true =
                { a with position := a.position,
                         length := a.length - (a.position + a.length - b.position) } := by
              unfold transformDeleteDelete
              rw [if_neg hR2, if_neg hR1]
              simp only
              rw [if_neg (by rintro ⟨x, y⟩; omega),
                if_neg (by rintro ⟨x, y⟩; omega),
                if_neg (by omega : ¬ b.position < a.position),
                if_neg (by omega :
                  ¬ a.length - (a.position + a.length - b.position) < 0)]
            rw [hT1, hT2]
            obtain ⟨d2, hd2, hc2⟩ := apply_delete_content
              { b with position := a.position,
                       length := b.length - (a.position + a.length - b.position) } d1
              hb (by simp only; omega) (by simp only; omega)
            obtain ⟨e2, he2, hk2⟩ := apply_delete_content
              { a with position := a.position,
                       length := a.length - (a.position + a.length - b.position) } e1
              ha (by simp only; omega) (by simp only; omega)
            rw [hd2, he2]
            simp only
            congr 1
            rw [hc2, hk2, hc1, hk1]
            simp only
            have hx1 : (b.length - (a.position + a.length - b.position)).toNat
                = b.position.toNat + b.length.toNat - (a.position.toNat + a.length.toNat) := by
              omega
            have hx2 : (a.length - (a.position + a.length - b.position)).toNat
                = b.position.toNat - a.position.toNat := by omega
            rw [hx1, hx2]
            exact (spliceDDpartialA s a.position.toNat a.length.toNat b.position.toNat
                b.length.toNat (by omega) (by omega) (by omega) (by omega)).trans
              (spliceDDpartialB s a.position.toNat b.position.toNat b.length.toNat
                (by omega) (by omega)).symm
          · have hT1 : transformDeleteDelete b a false =
                { b with position := b.position,
                         length := b.length - (b.position + b.length - a.position) } := by
              unfold transformDeleteDelete
              rw [if_neg hR1, if_neg hR2]
              simp only
              rw [if_neg (by rintro ⟨x, y⟩; omega),
                if_neg (by rintro ⟨x, y⟩; omega),
                if_neg (by omega : ¬ a.position < b.position),
                if_neg (by omega :
                  ¬ b.length - (b.position + b.length - a.position) < 0)]
            have hT2 : transformDeleteDelete a b true =
                { a with position := b.position,
                         length := a.length - (b.position + b.length - a.position) } := by
              unfold transformDeleteDelete
              rw [if_neg hR2, if_neg hR1]
              simp only
              rw [if_neg (by rintro ⟨x, y⟩; omega),
                if_neg (by rintro ⟨x, y⟩; omega),
                if_pos hp1,
                if_neg (by omega :
                  ¬ a.length - (b.position + b.length - a.position) < 0)]
            rw [hT1, hT2]
            obtain ⟨d2, hd2, hc2⟩ := apply_delete_content
              { b with position := b.position,
                       length := b.length - (b.position + b.length - a.position) } d1
              hb (by simp only; omega) (by simp only; omega)
            obtain ⟨e2, he2, hk2⟩ := apply_delete_content
              { a with position := b.position,
                       length := a.length - (b.position + b.length - a.position) } e1
              ha (by simp only; omega) (by simp only; omega)
            rw [hd2, he2]
            simp only
            congr 1
            rw [hc2, hk2, hc1, hk1]
            simp only
            have hx1 : (b.length - (b.position + b.length - a.position)).toNat
                = a.position.toNat - b.position.toNat := by omega
            have hx2 : (a.length - (b.position + b.length - a.position)).toNat
                = a.position.toNat + a.length.toNat - (b.position.toNat + b.length.toNat) := by
              omega
            rw [hx1, hx2]
            exact (spliceDDpartialB s b.position.toNat a.position.toNat a.length.toNat
                (by omega) (by omega)).trans
              (spliceDDpartialA s b.position.toNat b.length.toNat a.position.toNat
                a.length.toNat (by omega) (by omega) (by omega) (by omega)).symm

/-- C1: the amended TP1 diamond property: for concurrent operations valid on
the base content, with neither being an insert strictly inside the other's
deleted range, both transform orders produce the same content. -/
theorem tp1_pairwise (s : List Char) (a b : Operation)
    (hconc : IsConcurrent a.vectorClock b.vectorClock = true)
    (hva : validOn a s) (hvb : validOn b s)
    (hab : ¬ insertInsideDelete a b) (hba : ¬ insertInsideDelete b a) :
    tp1Side a b false s = tp1Side b a true s := by
  rcases hva with ⟨ha, ha0, ha1, haL⟩ | ⟨ha, ha0, haL, ha1⟩ <;>
    rcases hvb with ⟨hb, hb0, hb1, hbL⟩ | ⟨hb, hb0, hbL, hb1⟩
  · exact tp1_case_II s a b ha hb ha0 ha1 haL hb0 hb1 hbL
  · exact tp1_case_ID s a b ha hb ha0 ha1 haL hb0 hbL hb1
      (fun hx => hab ⟨ha, hb, hx.1, hx.2⟩)
  · exact tp1_case_DI s a b ha hb ha0 haL ha1 hb0 hb1 hbL
      (fun hx => hba ⟨hb, ha, hx.1, hx.2⟩)
  · exact tp1_case_DD s a b ha hb ha0 haL ha1 hb0 hbL hb1

set_option maxRecDepth 1000000 in
/-- C1 counterexample: on base `abcdefg` with the concurrent valid pair
`c1a = Delete(1,4)` and `c1b = Insert(3, X)`, the two transform orders give
different contents (`afg` versus `aXfg`): the insert inside the concurrent
delete is destroyed on one path only. -/
theorem tp1_fails_insert_inside_delete :
    IsConcurrent c1a.vectorClock c1b.vectorClock = true ∧
    validOn c1a c1S ∧ validOn c1b c1S ∧
    tp1Side c1a c1b false c1S ≠ tp1Side c1b c1a true c1S := by
  exact ⟨by decide, by decide, by decide, by decide⟩

set_option maxRecDepth 1000000 in
/-- C1 witness: the amended diamond at a concrete concurrent insert pair. -/
theorem tp1_pairwise_witness :
    tp1Side c1wa c1wb false c1S = tp1Side c1wb c1wa true c1S :=
  tp1_pairwise c1S c1wa c1wb (by decide) (by decide) (by decide) (by decide) (by decide)

end Collab
